import Mathlib

/-!
Verification of the Goal/Task Progress & Velocity Analytics Engine of the
bizy-ai repository, as a shallow embedding in Lean 4.

Time instants are modelled as rational numbers counting days since an
arbitrary epoch, so a Python `timedelta` of one day is the rational `1` and
`timedelta.days` is `Int.floor` of the difference.  Python floats are
modelled as rationals; Python `round(x, n)` rounds half to even, which
`pyround` reproduces exactly.  Database rows become Lean structures, SQL
filters become `List.filter`, and the `while` loop inside the circular
reference check of `update_goal` becomes a fuel-bounded recursion whose fuel
is the size of the goal table.
-/

namespace Bizy

/-- Task status as in both task models: pending, in_progress, completed,
blocked. -/
inductive TaskStatus
  | pending
  | in_progress
  | completed
  | blocked
deriving DecidableEq

/-- Goal status as in both goal models: active, completed, on_hold,
cancelled. -/
inductive GoalStatus
  | active
  | completed
  | on_hold
  | cancelled
deriving DecidableEq

/-- Python `round` rounds to the nearest integer, ties to even. -/
def roundHalfEven (x : ℚ) : ℤ :=
  let f := ⌊x⌋
  let r := x - f
  if r < 1/2 then f
  else if 1/2 < r then f + 1
  else if f % 2 = 0 then f else f + 1

/-- Python `round(x, n)`: round half to even at the n-th decimal place. -/
def pyround (x : ℚ) (n : ℕ) : ℚ :=
  (roundHalfEven (x * 10 ^ n) : ℚ) / 10 ^ n

theorem floor_le_roundHalfEven (x : ℚ) : ⌊x⌋ ≤ roundHalfEven x := by
  unfold roundHalfEven
  dsimp only
  split
  · exact le_refl _
  · split
    · exact le_of_lt (lt_add_one _)
    · split
      · exact le_refl _
      · exact le_of_lt (lt_add_one _)

theorem roundHalfEven_le_ceil (x : ℚ) : roundHalfEven x ≤ ⌈x⌉ := by
  unfold roundHalfEven
  dsimp only
  have hfc : ⌊x⌋ ≤ ⌈x⌉ := Int.floor_le_ceil x
  have hlt : ∀ (h : (1:ℚ)/2 ≤ x - ⌊x⌋), ⌊x⌋ + 1 ≤ ⌈x⌉ := by
    intro h
    have hx : (⌊x⌋ : ℚ) < x := by linarith
    exact Int.lt_ceil.mpr hx
  split
  · exact hfc
  · rename_i h1
    split
    · rename_i h2
      exact hlt (le_of_lt h2)
    · split
      · exact hfc
      · exact hlt (not_lt.mp h1)

theorem pyround_nonneg {x : ℚ} (n : ℕ) (hx : 0 ≤ x) : 0 ≤ pyround x n := by
  unfold pyround
  apply div_nonneg _ (by positivity)
  have h0 : (0:ℤ) ≤ ⌊x * 10 ^ n⌋ := Int.le_floor.mpr (by push_cast; positivity)
  have := floor_le_roundHalfEven (x * 10 ^ n)
  exact_mod_cast le_trans h0 this

theorem pyround_le {x B : ℚ} (n : ℕ) (hx : x ≤ B) (hB : ∃ b : ℤ, (b : ℚ) = B) :
    pyround x n ≤ B := by
  obtain ⟨b, rfl⟩ := hB
  unfold pyround
  rw [div_le_iff₀ (by positivity)]
  have h1 : roundHalfEven (x * 10 ^ n) ≤ ⌈x * 10 ^ n⌉ := roundHalfEven_le_ceil _
  have h2 : ⌈x * 10 ^ n⌉ ≤ b * 10 ^ n := by
    apply Int.ceil_le.mpr
    push_cast
    have : (0:ℚ) < 10 ^ n := by positivity
    nlinarith
  calc (roundHalfEven (x * 10 ^ n) : ℚ) ≤ (⌈x * 10 ^ n⌉ : ℚ) := by exact_mod_cast h1
    _ ≤ ((b * 10 ^ n : ℤ) : ℚ) := by exact_mod_cast h2
    _ = (b : ℚ) * 10 ^ n := by push_cast; ring

end Bizy

namespace Bizy.Backend

/-- The backend `Task` row (`backend/models/task.py`), restricted to the
fields consumed by the analytics engine and the task lifecycle routes. -/
structure Task where
  id : ℕ
  priority : ℤ
  status : TaskStatus
  completed_at : Option ℚ
  actual_hours : Option ℚ
  parent_goal_id : Option ℕ
deriving DecidableEq

/-- The backend `Goal` row (`backend/models/goal.py`), restricted to the
fields consumed by the analytics engine and the goal routes. -/
structure Goal where
  id : ℕ
  status : GoalStatus
  progress_percentage : ℚ
  parent_goal_id : Option ℕ
  target_date : Option ℚ
  completed_at : Option ℚ
deriving DecidableEq

/-- Tasks with `parent_goal_id == goal_id` (the task count query of
`calculate_goal_progress`). -/
def tasksOfGoal (tasks : List Task) (goal_id : ℕ) : List Task :=
  tasks.filter (fun t => t.parent_goal_id == some goal_id)

/-- Tasks with `parent_goal_id == goal_id` and `status == "completed"` (the
completed count query of `calculate_goal_progress`). -/
def completedTasksOfGoal (tasks : List Task) (goal_id : ℕ) : List Task :=
  (tasksOfGoal tasks goal_id).filter (fun t => t.status == TaskStatus.completed)

/-- Goals with `parent_goal_id == goal_id` (the subgoal query of
`calculate_goal_progress`). -/
def subgoalsOf (goals : List Goal) (goal_id : ℕ) : List Goal :=
  goals.filter (fun g => g.parent_goal_id == some goal_id)

/-- The `progress` computed by `POST /goals/{goal_id}/calculate-progress`
(`backend/api/routes/goals.py`, `calculate_goal_progress`) before rounding:
the 50/50 weighting of the direct-task completion rate and the mean of the
direct subgoals' stored progress. -/
def progressValue (goal : Goal) (tasks : List Task) (goals : List Goal) : ℚ :=
  let total_tasks := (tasksOfGoal tasks goal.id).length
  let completed_tasks := (completedTasksOfGoal tasks goal.id).length
  let task_progress : ℚ :=
    if total_tasks > 0 then (completed_tasks : ℚ) / (total_tasks : ℚ) * 100 else 0
  let subgoals := subgoalsOf goals goal.id
  let subgoal_progress : ℚ :=
    if ¬ subgoals.isEmpty then
      (subgoals.map (fun sg => sg.progress_percentage)).sum / (subgoals.length : ℚ)
    else 0
  if total_tasks > 0 ∧ ¬ subgoals.isEmpty then
    task_progress * (1/2) + subgoal_progress * (1/2)
  else if total_tasks > 0 then task_progress
  else if ¬ subgoals.isEmpty then subgoal_progress
  else 0

/-- `POST /goals/{goal_id}/calculate-progress`
(`backend/api/routes/goals.py`, `calculate_goal_progress`): recompute the
goal's progress from its direct tasks and direct subgoals, round to two
decimal places, persist, and auto-complete an active goal at 100%. -/
def calculate_goal_progress (goal : Goal) (tasks : List Task)
    (goals : List Goal) (now : ℚ) : Goal :=
  let goal' : Goal :=
    { goal with progress_percentage := pyround (progressValue goal tasks goals) 2 }
  if goal'.progress_percentage ≥ 100 ∧ goal'.status = GoalStatus.active then
    { goal' with status := GoalStatus.completed, completed_at := some now }
  else goal'

end Bizy.Backend

namespace Bizy.Spec

/-- Per the spec: `task_ratio = completed/total * 100` when the goal has at
least one direct task, undefined otherwise. -/
def task_ratio (completed total : ℕ) : Option ℚ :=
  if total = 0 then none else some ((completed : ℚ) / (total : ℚ) * 100)

/-- Per the spec: `subgoal_ratio` is the mean of the direct subgoals' stored
`progress_percentage`, undefined when there is no direct subgoal. -/
def subgoal_ratio (ps : List ℚ) : Option ℚ :=
  if ps.isEmpty then none else some (ps.sum / (ps.length : ℚ))

/-- Per the spec: `0.5*task_ratio + 0.5*subgoal_ratio` when both are
defined, the single defined ratio when only one is defined, `0` when
neither is defined. -/
def combine : Option ℚ → Option ℚ → ℚ
  | some t, some s => (1/2) * t + (1/2) * s
  | some t, none => t
  | none, some s => s
  | none, none => 0

end Bizy.Spec

namespace Bizy.Agent

/-- The agent `Task` row (`agent/models.py`), restricted to the fields the
analytics functions consume.  The agent models keep status as a free string
column. -/
structure Task where
  id : ℕ
  status : String
  completed_at : Option ℚ
  parent_goal_id : Option ℕ
deriving DecidableEq

/-- The agent `Goal` row (`agent/models.py`), restricted to the fields the
planner and predictor consume.  Note that this model has no completion
timestamp column at all. -/
structure Goal where
  id : ℕ
  status : String
  progress_percentage : ℚ
  target_date : Option ℚ
deriving DecidableEq

/-- `BusinessPlanner.update_goal_progress` (`agent/planner.py`): store the
given percentage as-is and mark the goal completed whenever it is at least
100, whatever the current status. -/
def update_goal_progress (goal : Goal) (progress_percentage : ℚ) : Goal :=
  let goal' : Goal := { goal with progress_percentage := progress_percentage }
  if progress_percentage ≥ 100 then { goal' with status := "completed" }
  else goal'

/-- `TaskManager.get_tasks_by_goal` (`agent/tasks.py`). -/
def get_tasks_by_goal (tasks : List Task) (goal_id : ℕ) : List Task :=
  tasks.filter (fun t => t.parent_goal_id == some goal_id)

/-- `BusinessPlanner.calculate_goal_progress` (`agent/planner.py`): the
completed fraction of the goal's direct tasks, ignoring subgoals; returns 0
without persisting when the goal has no tasks, otherwise persists through
`update_goal_progress`.  The returned pair is (updated goal, returned
progress). -/
def calculate_goal_progress (goal : Goal) (tasks : List Task) : Goal × ℚ :=
  let ts := get_tasks_by_goal tasks goal.id
  if ts.isEmpty then (goal, 0)
  else
    let completed := (ts.filter (fun t => t.status == "completed")).length
    let progress : ℚ := ((completed : ℚ) / (ts.length : ℚ)) * 100
    (update_goal_progress goal progress, progress)

/-- `TaskManager.get_completed_tasks_this_week` (`agent/tasks.py`): tasks
with `status == 'completed'` whose `completed_at` lies in
`[now - days, now]`. -/
def get_completed_tasks_this_week (tasks : List Task) (days : ℚ) (now : ℚ) :
    List Task :=
  tasks.filter (fun t =>
    t.status == "completed" &&
      match t.completed_at with
      | some c => decide (now - days ≤ c) && decide (c ≤ now)
      | none => false)

/-- `TaskManager.get_task_velocity` (`agent/tasks.py`): tasks completed in
the trailing window divided by the window length, 0.0 when none qualify. -/
def get_task_velocity (tasks : List Task) (days : ℚ) (now : ℚ) : ℚ :=
  let completed_tasks := get_completed_tasks_this_week tasks days now
  if completed_tasks.isEmpty then 0
  else (completed_tasks.length : ℚ) / days

/-- The remaining (pending or in_progress) tasks of a goal, as queried by
both `predict_goal_completion` and `calculate_required_velocity`
(`agent/analytics.py`). -/
def remainingTasksOf (tasks : List Task) (goal_id : ℕ) : List Task :=
  tasks.filter (fun t =>
    t.parent_goal_id == some goal_id &&
      (t.status == "pending" || t.status == "in_progress"))

/-- Result of `VelocityPredictor.predict_goal_completion`, keeping the
fields the prediction dictionary carries. -/
inductive PredictResult
  | complete (remaining_tasks : ℕ)
  | no_velocity (remaining_tasks : ℕ)
  | predicted (remaining_tasks : ℕ) (current_velocity : ℚ) (days_needed : ℚ)
      (predicted_completion : ℚ) (on_track : Bool)
deriving DecidableEq

/-- `VelocityPredictor.predict_goal_completion` (`agent/analytics.py`) for
an existing goal: `complete` when no pending/in_progress task remains,
`no_velocity` when the global trailing velocity is zero, otherwise a
prediction `now + remaining/velocity` with the on-track flag cleared when
`days_needed` exceeds the whole days until the target date. -/
def predict_goal_completion (goal : Goal) (tasks : List Task)
    (velocity_days : ℚ) (now : ℚ) : PredictResult :=
  let remaining := remainingTasksOf tasks goal.id
  if remaining.isEmpty then .complete 0
  else
    let velocity := get_task_velocity tasks velocity_days now
    if velocity = 0 then .no_velocity remaining.length
    else
      let days_needed : ℚ := (remaining.length : ℚ) / velocity
      let predicted_completion := now + days_needed
      let on_track : Bool :=
        match goal.target_date with
        | none => true
        | some td => !(decide (days_needed > ((⌊td - now⌋ : ℤ) : ℚ)))
      .predicted remaining.length velocity days_needed predicted_completion
        on_track

/-- Result of `VelocityPredictor.calculate_required_velocity`, keeping the
fields the result dictionary carries. -/
inductive RequiredResult
  | no_target
  | complete
  | overdue (remaining_tasks : ℕ)
  | calculated (remaining_tasks : ℕ) (days_until_target : ℤ)
      (required_velocity : ℚ) (current_velocity : ℚ) (velocity_gap : ℚ)
      (feasible : Bool)
deriving DecidableEq

/-- `VelocityPredictor.calculate_required_velocity` (`agent/analytics.py`)
for an existing goal: error without a target date, `complete` when nothing
remains, `overdue` when the target date is not strictly in the future,
otherwise `remaining / days_until_target` compared against the current
7-day velocity, feasible when the gap is at most half the current
velocity. -/
def calculate_required_velocity (goal : Goal) (tasks : List Task) (now : ℚ) :
    RequiredResult :=
  match goal.target_date with
  | none => .no_target
  | some target_date =>
    let remaining_tasks := (remainingTasksOf tasks goal.id).length
    if remaining_tasks = 0 then .complete
    else
      let days_until_target : ℤ := ⌊target_date - now⌋
      if days_until_target ≤ 0 then .overdue remaining_tasks
      else
        let required_velocity : ℚ :=
          (remaining_tasks : ℚ) / ((days_until_target : ℤ) : ℚ)
        let current_velocity := get_task_velocity tasks 7 now
        let velocity_gap := required_velocity - current_velocity
        .calculated remaining_tasks days_until_target required_velocity
          current_velocity velocity_gap
          (decide (velocity_gap ≤ current_velocity * (1/2)))

end Bizy.Agent

namespace Bizy.Backend

/-- `POST /tasks/{task_id}/complete` (`backend/api/routes/tasks.py`,
`complete_task`): reject an already completed task, otherwise set the
status to completed, stamp `completed_at`, and optionally record actual
hours. -/
def complete_task (task : Task) (now : ℚ) (actual_hours : Option ℚ) :
    Except String Task :=
  if task.status = TaskStatus.completed then
    .error "Task is already completed"
  else
    let task' : Task := { task with
      status := TaskStatus.completed, completed_at := some now }
    match actual_hours with
    | some h => .ok { task' with actual_hours := some h }
    | none => .ok task'

/-- `POST /tasks/{task_id}/uncomplete` (`backend/api/routes/tasks.py`,
`uncomplete_task`): reject a task that is not completed, otherwise revert
to pending and clear `completed_at`. -/
def uncomplete_task (task : Task) : Except String Task :=
  if task.status ≠ TaskStatus.completed then
    .error "Task is not completed"
  else
    .ok { task with status := TaskStatus.pending, completed_at := none }

/-- The `TaskUpdate` request body (`backend/api/routes/tasks.py`),
restricted to the modelled fields; `none` means the field was absent from
the request.  The schema has no `completed_at` field. -/
structure TaskUpdate where
  priority : Option ℤ := none
  status : Option TaskStatus := none
  actual_hours : Option ℚ := none
  parent_goal_id : Option (Option ℕ) := none
deriving DecidableEq

/-- `PATCH /tasks/{task_id}` (`backend/api/routes/tasks.py`,
`update_task`): set exactly the provided fields; `completed_at` is never
touched. -/
def update_task (task : Task) (u : TaskUpdate) : Task :=
  let t1 : Task := match u.priority with
    | some p => { task with priority := p }
    | none => task
  let t2 : Task := match u.status with
    | some s => { t1 with status := s }
    | none => t1
  let t3 : Task := match u.actual_hours with
    | some h => { t2 with actual_hours := some h }
    | none => t2
  match u.parent_goal_id with
  | some pg => { t3 with parent_goal_id := pg }
  | none => t3

/-- The Task invariant stated by the spec: `completed_at` is present if and
only if the status is completed. -/
def taskInv (t : Task) : Prop :=
  t.completed_at ≠ none ↔ t.status = TaskStatus.completed

/-- The completed-task query of `GET /analytics/velocity`
(`backend/api/routes/analytics.py`, `get_velocity_metrics`): completed
tasks whose `completed_at` lies in `[now - days, now]`. -/
def completedInWindow (tasks : List Task) (days : ℕ) (now : ℚ) : List Task :=
  tasks.filter (fun t =>
    t.status == TaskStatus.completed &&
      match t.completed_at with
      | some c => decide (now - (days : ℚ) ≤ c) && decide (c ≤ now)
      | none => false)

/-- The calendar date of a completed task, as an integral day number. -/
def taskDate (t : Task) : ℤ :=
  match t.completed_at with
  | some c => ⌊c⌋
  | none => 0

/-- The distinct keys of the `daily_counts` dict in Python insertion order:
first occurrence wins. -/
def firstOccurrences : List ℤ → List ℤ
  | [] => []
  | d :: rest => d :: firstOccurrences (rest.filter (fun x => x ≠ d))
termination_by l => l.length
decreasing_by
  simp only [List.length_cons]
  exact Nat.lt_succ_of_le (List.length_filter_le _ _)

/-- `daily_counts[d]`: how many tasks of the list were completed on day
`d`. -/
def countOnDate (l : List Task) (d : ℤ) : ℕ :=
  (l.filter (fun t => taskDate t == d)).length

/-- Python `max(daily_counts, key=daily_counts.get)`: the first key in
iteration order achieving the maximal count (later keys replace only on a
strictly greater count). -/
def argmaxDate (dates : List ℤ) (count : ℤ → ℕ) : Option ℤ :=
  dates.foldl
    (fun acc d =>
      match acc with
      | none => some d
      | some b => if count d > count b then some d else acc)
    none

/-- Python `min(daily_counts, key=daily_counts.get)`: the first key in
iteration order achieving the minimal count. -/
def argminDate (dates : List ℤ) (count : ℤ → ℕ) : Option ℤ :=
  dates.foldl
    (fun acc d =>
      match acc with
      | none => some d
      | some b => if count d < count b then some d else acc)
    none

/-- One entry of the daily breakdown / best day / worst day payloads. -/
structure DayCount where
  date : ℤ
  tasks_completed : ℕ
deriving DecidableEq

/-- The completion trend classification. -/
inductive Trend
  | improving
  | declining
  | stable
deriving DecidableEq

/-- The `VelocityMetricsResponse` payload
(`backend/api/routes/analytics.py`). -/
structure VelocityMetricsResponse where
  period_days : ℕ
  velocity : ℚ
  tasks_per_day : ℚ
  completion_trend : Trend
  productivity_score : ℚ
  best_day : Option DayCount
  worst_day : Option DayCount
  daily_breakdown : List DayCount
deriving DecidableEq

/-- The first-half velocity of the trend computation: tasks completed
before the window midpoint, divided by half the window. -/
def firstHalfVelocity (tasks : List Task) (days : ℕ) (now : ℚ) : ℚ :=
  let start_date := now - (days : ℚ)
  let midpoint := start_date + (days : ℚ) / 2
  let first_half := (completedInWindow tasks days now).filter (fun t =>
    match t.completed_at with
    | some c => decide (c < midpoint)
    | none => false)
  (first_half.length : ℚ) / ((days : ℚ) / 2)

/-- The second-half velocity of the trend computation: tasks completed at or
after the window midpoint, divided by half the window. -/
def secondHalfVelocity (tasks : List Task) (days : ℕ) (now : ℚ) : ℚ :=
  let start_date := now - (days : ℚ)
  let midpoint := start_date + (days : ℚ) / 2
  let second_half := (completedInWindow tasks days now).filter (fun t =>
    match t.completed_at with
    | some c => decide (midpoint ≤ c)
    | none => false)
  (second_half.length : ℚ) / ((days : ℚ) / 2)

/-- `GET /analytics/velocity` (`backend/api/routes/analytics.py`,
`get_velocity_metrics`): velocity, daily breakdown, best/worst day, trend
classification over the two window halves, and the weighted productivity
score. -/
def get_velocity_metrics (tasks : List Task) (days : ℕ) (now : ℚ) :
    VelocityMetricsResponse :=
  let completed_tasks := completedInWindow tasks days now
  let velocity : ℚ :=
    if days > 0 then (completed_tasks.length : ℚ) / (days : ℚ) else 0
  let dates := firstOccurrences (completed_tasks.map taskDate)
  let daily_breakdown : List DayCount :=
    (dates.mergeSort (fun a b => a ≤ b)).map
      (fun d => ⟨d, countOnDate completed_tasks d⟩)
  let best_day : Option DayCount :=
    (argmaxDate dates (countOnDate completed_tasks)).map
      (fun d => ⟨d, countOnDate completed_tasks d⟩)
  let worst_day : Option DayCount :=
    if dates.length > 1 then
      (argminDate dates (countOnDate completed_tasks)).map
        (fun d => ⟨d, countOnDate completed_tasks d⟩)
    else none
  let first_half_velocity := firstHalfVelocity tasks days now
  let second_half_velocity := secondHalfVelocity tasks days now
  let trend : Trend :=
    if second_half_velocity > first_half_velocity * (11/10) then .improving
    else if second_half_velocity < first_half_velocity * (9/10) then .declining
    else .stable
  let high_priority_completed :=
    (completed_tasks.filter (fun t => decide (t.priority ≤ 2))).length
  let high_priority_ratio : ℚ :=
    if ¬ completed_tasks.isEmpty then
      (high_priority_completed : ℚ) / (completed_tasks.length : ℚ)
    else 0
  let trend_bonus : ℚ :=
    if trend = .improving then 50 else if trend = .stable then 30 else 10
  let productivity_score : ℚ :=
    min 100
      ((velocity * 10) * (1/2) + (high_priority_ratio * 100) * (3/10) +
        trend_bonus * (1/5))
  { period_days := days
    velocity := pyround velocity 2
    tasks_per_day := pyround velocity 2
    completion_trend := trend
    productivity_score := pyround productivity_score 1
    best_day := best_day
    worst_day := worst_day
    daily_breakdown := daily_breakdown }

end Bizy.Backend

namespace Bizy.Backend

/-- `db.query(GoalModel).filter(GoalModel.id == i).first()` over the goal
table. -/
def findGoal (goals : List Goal) (i : ℕ) : Option Goal :=
  goals.find? (fun g => g.id == i)

/-- The parent id of goal `i` in the table, `none` when the goal is absent
or has no parent. -/
def parentOf (goals : List Goal) (i : ℕ) : Option ℕ :=
  (findGoal goals i).bind (fun g => g.parent_goal_id)

/-- The `is_descendant(parent_id, descendant_id)` walk of `update_goal`
(`backend/api/routes/goals.py`): starting at `cur`, repeatedly step to the
parent, returning true when `target` is encountered as a parent.  The
Python `while` loop is rendered with explicit fuel; the callers pass the
table size, which suffices on every acyclic table. -/
def is_descendant (goals : List Goal) : ℕ → ℕ → ℕ → Bool
  | 0, _, _ => false
  | fuel + 1, cur, target =>
    match parentOf goals cur with
    | none => false
    | some p => p == target || is_descendant goals fuel p target

/-- The parent-reassignment path of `PATCH /goals/{goal_id}`
(`backend/api/routes/goals.py`, `update_goal`) when a non-null
`parent_goal_id` is supplied: 404 when the goal is missing, 400 on a
self-parent, 400 when the parent is missing, 400 when the parent is a
descendant of the goal, otherwise persist the new parent. -/
def update_goal_set_parent (goals : List Goal) (goal_id parent_id : ℕ) :
    Except String (List Goal) :=
  if (findGoal goals goal_id).isSome then
    if parent_id = goal_id then
      .error "A goal cannot be its own parent"
    else
      if (findGoal goals parent_id).isSome then
        if is_descendant goals goals.length parent_id goal_id then
          .error "Cannot create circular reference"
        else
          .ok (goals.map (fun g =>
            if g.id = goal_id then { g with parent_goal_id := some parent_id }
            else g))
      else .error "Parent goal not found"
  else .error "Goal not found"

/-- One upward step in the parent relation of the goal table. -/
def gstep (goals : List Goal) (x y : ℕ) : Prop :=
  parentOf goals x = some y

/-- `y` occurs in the ancestor chain of `x` (at any depth): transitive
closure of the parent relation. -/
def Reaches (goals : List Goal) (x y : ℕ) : Prop :=
  Relation.TransGen (gstep goals) x y

/-- The forest invariant: no goal is its own ancestor, direct or
transitive. -/
def Acyclic (goals : List Goal) : Prop :=
  ∀ x, ¬ Reaches goals x x

/-- The `n`-fold iterate of the parent relation. -/
def iterParent (goals : List Goal) : ℕ → ℕ → Option ℕ
  | 0, x => some x
  | n + 1, x => (parentOf goals x).bind (iterParent goals n)

theorem iterParent_add (goals : List Goal) (m n : ℕ) (x : ℕ) :
    iterParent goals (m + n) x =
      (iterParent goals m x).bind (iterParent goals n) := by
  induction m generalizing x with
  | zero => simp [iterParent]
  | succ k ih =>
    have : k + 1 + n = (k + n) + 1 := by omega
    rw [this]
    show (parentOf goals x).bind (iterParent goals (k + n)) = _
    cases hp : parentOf goals x with
    | none => simp [iterParent, hp]
    | some p => simp [iterParent, hp, ih]

theorem reaches_iff_iterParent (goals : List Goal) (x y : ℕ) :
    Reaches goals x y ↔ ∃ n, iterParent goals (n + 1) x = some y := by
  constructor
  · intro h
    induction h with
    | single hstep =>
      refine ⟨0, ?_⟩
      show (parentOf goals x).bind (iterParent goals 0) = _
      rw [(hstep : parentOf goals x = some _)]
      rfl
    | tail hxz hstep ih =>
      obtain ⟨n, hn⟩ := ih
      refine ⟨n + 1, ?_⟩
      rw [iterParent_add goals (n + 1) 1, hn]
      show iterParent goals 1 _ = _
      show (parentOf goals _).bind (iterParent goals 0) = _
      rw [(hstep : parentOf goals _ = some _)]
      rfl
  · rintro ⟨n, hn⟩
    induction n generalizing x with
    | zero =>
      cases hp : parentOf goals x with
      | none => simp [iterParent, hp] at hn
      | some p =>
        have hpy : p = y := by simpa [iterParent, hp] using hn
        exact Relation.TransGen.single (show gstep goals x y from hpy ▸ hp)
    | succ k ih =>
      cases hp : parentOf goals x with
      | none => simp [iterParent, hp] at hn
      | some p =>
        have hn' : iterParent goals (k + 1) p = some y := by
          have h2 : iterParent goals (k + 1 + 1) x =
              (parentOf goals x).bind (iterParent goals (k + 1)) := rfl
          rw [h2, hp] at hn
          simpa using hn
        exact Relation.TransGen.head (show gstep goals x p from hp) (ih p hn')

theorem is_descendant_iff_iterParent (goals : List Goal) (fuel b : ℕ) :
    ∀ a, is_descendant goals fuel a b = true ↔
      ∃ n, n < fuel ∧ iterParent goals (n + 1) a = some b := by
  induction fuel with
  | zero => intro a; simp [is_descendant]
  | succ k ih =>
    intro a
    simp only [is_descendant]
    cases hp : parentOf goals a with
    | none =>
      constructor
      · intro h; cases h
      · rintro ⟨n, _, hiter⟩
        have h1 : (parentOf goals a).bind (iterParent goals n) = some b := hiter
        rw [hp] at h1
        simp at h1
    | some p =>
      simp only [Bool.or_eq_true, beq_iff_eq, ih p]
      constructor
      · rintro (rfl | ⟨n, hnk, hn⟩)
        · refine ⟨0, Nat.succ_pos k, ?_⟩
          show (parentOf goals a).bind (iterParent goals 0) = _
          rw [hp]
          rfl
        · refine ⟨n + 1, by omega, ?_⟩
          show (parentOf goals a).bind (iterParent goals (n + 1)) = some b
          rw [hp]
          simpa using hn
      · rintro ⟨n, hnk, hn⟩
        have hn' : (parentOf goals a).bind (iterParent goals n) = some b := hn
        rw [hp] at hn'
        simp only [Option.some_bind] at hn'
        cases n with
        | zero =>
          left
          simpa [iterParent] using hn'
        | succ m =>
          right
          exact ⟨m, by omega, hn'⟩

theorem parentOf_isSome_mem_ids (goals : List Goal) (x p : ℕ)
    (h : parentOf goals x = some p) : x ∈ goals.map Goal.id := by
  unfold parentOf findGoal at h
  cases hf : goals.find? (fun g => g.id == x) with
  | none => rw [hf] at h; simp at h
  | some g =>
    have hmem := List.mem_of_find?_eq_some hf
    have hid : g.id = x := by
      have := List.find?_some hf
      simpa using this
    exact hid ▸ List.mem_map_of_mem Goal.id hmem

end Bizy.Backend

namespace Bizy.Backend

theorem iterParent_isSome_of_le (goals : List Goal) {m n : ℕ} (hmn : m ≤ n)
    {a b : ℕ} (h : iterParent goals n a = some b) :
    ∃ c, iterParent goals m a = some c := by
  obtain ⟨k, rfl⟩ := Nat.exists_eq_add_of_le hmn
  rw [iterParent_add] at h
  cases hm : iterParent goals m a with
  | none => rw [hm] at h; simp at h
  | some c => exact ⟨c, rfl⟩

/-- If some iterate of the parent map sends `a` to `b`, the least such
iterate is short: its index is below the table size.  The nodes visited
before the least arrival are pairwise distinct (cutting out a repetition
would give an earlier arrival) and each of them owns a parent link, hence
occurs among the table's ids. -/
theorem exists_short_iterParent (goals : List Goal) {a b : ℕ}
    (h : ∃ n, iterParent goals (n + 1) a = some b) :
    ∃ n, n < goals.length ∧ iterParent goals (n + 1) a = some b := by
  classical
  let P : ℕ → Prop := fun n => iterParent goals (n + 1) a = some b
  have hP : ∃ n, P n := h
  let n0 := Nat.find hP
  have hn0 : P n0 := Nat.find_spec hP
  refine ⟨n0, ?_, hn0⟩
  by_contra hlong
  push_neg at hlong
  -- the visited nodes, one for each index `i ≤ n0`
  have hsome : ∀ i : ℕ, i ≤ n0 → ∃ c, iterParent goals i a = some c := by
    intro i hi
    exact iterParent_isSome_of_le goals (by omega) hn0
  let f : ℕ → ℕ := fun i => (iterParent goals i a).getD 0
  have hf : ∀ i : ℕ, i ≤ n0 → iterParent goals i a = some (f i) := by
    intro i hi
    obtain ⟨c, hc⟩ := hsome i hi
    simp [f, hc]
  -- every visited node owns a parent link, hence an id in the table
  have hmem : ∀ i : ℕ, i ≤ n0 → f i ∈ goals.map Goal.id := by
    intro i hi
    have hrest : iterParent goals (n0 + 1 - i) (f i) = some b := by
      have hfull : iterParent goals (n0 + 1) a = some b := hn0
      have hsplit : iterParent goals (i + (n0 + 1 - i)) a =
          (iterParent goals i a).bind (iterParent goals (n0 + 1 - i)) :=
        iterParent_add goals i (n0 + 1 - i) a
      rw [show i + (n0 + 1 - i) = n0 + 1 from by omega] at hsplit
      rw [hf i hi] at hsplit
      rw [hsplit] at hfull
      simpa using hfull
    have hpos : 1 ≤ n0 + 1 - i := by omega
    obtain ⟨c, hc⟩ := iterParent_isSome_of_le goals hpos hrest
    have hc1 : (parentOf goals (f i)).bind (iterParent goals 0) = some c := hc
    cases hpar : parentOf goals (f i) with
    | none => rw [hpar] at hc1; simp at hc1
    | some p => exact parentOf_isSome_mem_ids goals (f i) p hpar
  -- the visited nodes are pairwise distinct by minimality of `n0`
  have hinj : ∀ i j : ℕ, i ≤ n0 → j ≤ n0 → i < j → f i ≠ f j := by
    intro i j hi hj hij heq
    have hiter : iterParent goals (i + (n0 + 1 - j)) a = some b := by
      have h1 : iterParent goals (i + (n0 + 1 - j)) a =
          (iterParent goals i a).bind (iterParent goals (n0 + 1 - j)) :=
        iterParent_add goals i (n0 + 1 - j) a
      have h2 : iterParent goals (n0 + 1 - j) (f j) = some b := by
        have hfull : iterParent goals (n0 + 1) a = some b := hn0
        have hsplit : iterParent goals (j + (n0 + 1 - j)) a =
            (iterParent goals j a).bind (iterParent goals (n0 + 1 - j)) :=
          iterParent_add goals j (n0 + 1 - j) a
        rw [show j + (n0 + 1 - j) = n0 + 1 from by omega] at hsplit
        rw [hf j hj] at hsplit
        rw [hsplit] at hfull
        simpa using hfull
      rw [h1, hf i hi]
      simpa [heq] using h2
    have hlt : i + (n0 + 1 - j) - 1 < n0 := by omega
    have : P (i + (n0 + 1 - j) - 1) := by
      show iterParent goals (i + (n0 + 1 - j) - 1 + 1) a = some b
      rw [show i + (n0 + 1 - j) - 1 + 1 = i + (n0 + 1 - j) from by omega]
      exact hiter
    exact absurd this (Nat.find_min hP hlt)
  -- pigeonhole: `n0 + 1` distinct members of a list of length `goals.length`
  have hcard : n0 + 1 ≤ goals.length := by
    have hinj' : Set.InjOn f (Finset.range (n0 + 1)) := by
      intro i hi j hj hij
      simp only [Finset.coe_range, Set.mem_Iio] at hi hj
      rcases lt_trichotomy i j with hlt | heq | hgt
      · exact absurd hij (hinj i j (by omega) (by omega) hlt)
      · exact heq
      · exact absurd hij.symm (hinj j i (by omega) (by omega) hgt)
    have hsub : (Finset.range (n0 + 1)).image f ⊆ (goals.map Goal.id).toFinset := by
      intro v hv
      simp only [Finset.mem_image, Finset.mem_range] at hv
      obtain ⟨i, hi, rfl⟩ := hv
      exact List.mem_toFinset.mpr (hmem i (by omega))
    have h1 : ((Finset.range (n0 + 1)).image f).card = n0 + 1 := by
      rw [Finset.card_image_of_injOn hinj', Finset.card_range]
    have h2 := Finset.card_le_card hsub
    have h3 : (goals.map Goal.id).toFinset.card ≤ (goals.map Goal.id).length :=
      List.toFinset_card_le _
    simp only [List.length_map] at h3
    omega
  omega

/-- The executable circular-reference walk, run with the table size as
fuel, decides ancestor-chain membership exactly. -/
theorem is_descendant_iff_reaches (goals : List Goal) (a b : ℕ) :
    is_descendant goals goals.length a b = true ↔ Reaches goals a b := by
  rw [is_descendant_iff_iterParent goals goals.length b a,
    reaches_iff_iterParent]
  constructor
  · rintro ⟨n, _, hn⟩
    exact ⟨n, hn⟩
  · intro h
    exact exists_short_iterParent goals h

end Bizy.Backend

namespace Bizy.Backend

/-- The row update performed on a successful parent reassignment. -/
def setParentRow (goal_id parent_id : ℕ) (g : Goal) : Goal :=
  if g.id = goal_id then { g with parent_goal_id := some parent_id } else g

theorem setParentRow_id (goal_id parent_id : ℕ) (g : Goal) :
    (setParentRow goal_id parent_id g).id = g.id := by
  unfold setParentRow
  split <;> rfl

theorem findGoal_map_setParentRow (goals : List Goal) (A P x : ℕ) :
    findGoal (goals.map (setParentRow A P)) x =
      (findGoal goals x).map (setParentRow A P) := by
  unfold findGoal
  have hp : ((fun g : Goal => g.id == x) ∘ setParentRow A P) =
      (fun g : Goal => g.id == x) := by
    funext g
    simp [Function.comp, setParentRow_id]
  rw [List.find?_map, hp]

theorem parentOf_map_setParentRow_ne (goals : List Goal) (A P x : ℕ)
    (hx : x ≠ A) :
    parentOf (goals.map (setParentRow A P)) x = parentOf goals x := by
  unfold parentOf
  rw [findGoal_map_setParentRow]
  cases hf : findGoal goals x with
  | none => rfl
  | some g =>
    have hid : g.id = x := by simpa using List.find?_some hf
    show (setParentRow A P g).parent_goal_id = g.parent_goal_id
    unfold setParentRow
    rw [hid, if_neg hx]

theorem parentOf_map_setParentRow_self (goals : List Goal) (A P : ℕ)
    (hA : (findGoal goals A).isSome) :
    parentOf (goals.map (setParentRow A P)) A = some P := by
  unfold parentOf
  rw [findGoal_map_setParentRow]
  cases hf : findGoal goals A with
  | none => rw [hf] at hA; simp at hA
  | some g =>
    have hid : g.id = A := by simpa using List.find?_some hf
    show (setParentRow A P g).parent_goal_id = some P
    unfold setParentRow
    rw [hid, if_pos rfl]

/-- Every old chain ending at `A` yields a chain in the updated table: the
chain only uses sources other than `A` until it first reaches `A`, and
there it can simply stop. -/
theorem rtg_old_to_new (goals : List Goal) (A P : ℕ) :
    ∀ z, Relation.ReflTransGen (gstep goals) z A →
      Relation.ReflTransGen (gstep (goals.map (setParentRow A P))) z A := by
  intro z hz
  induction hz using Relation.ReflTransGen.head_induction_on with
  | refl => exact Relation.ReflTransGen.refl
  | head hstep htail ih =>
    rename_i c d
    by_cases hcA : c = A
    · exact hcA ▸ Relation.ReflTransGen.refl
    · refine Relation.ReflTransGen.head ?_ ih
      show gstep (goals.map (setParentRow A P)) c d
      unfold gstep
      rw [parentOf_map_setParentRow_ne goals A P c hcA]
      exact hstep

/-- Every chain of the updated table either already existed in the old
table, or splits into an old chain from its start to `A` followed by a new
chain from `A` to its end. -/
theorem rtg_new_to_old (goals : List Goal) (A P : ℕ) :
    ∀ x y, Relation.ReflTransGen (gstep (goals.map (setParentRow A P))) x y →
      Relation.ReflTransGen (gstep goals) x y ∨
        (Relation.ReflTransGen (gstep goals) x A ∧
          Relation.ReflTransGen (gstep (goals.map (setParentRow A P))) A y) := by
  intro x y hxy
  induction hxy using Relation.ReflTransGen.head_induction_on with
  | refl => exact Or.inl Relation.ReflTransGen.refl
  | head hstep htail ih =>
    rename_i c d
    by_cases hcA : c = A
    · subst hcA
      exact Or.inr ⟨Relation.ReflTransGen.refl,
        Relation.ReflTransGen.head hstep htail⟩
    · have hstep' : gstep goals c d := by
        unfold gstep
        rw [← parentOf_map_setParentRow_ne goals A P c hcA]
        exact hstep
      cases ih with
      | inl h => exact Or.inl (Relation.ReflTransGen.head hstep' h)
      | inr h =>
        exact Or.inr ⟨Relation.ReflTransGen.head hstep' h.1, h.2⟩

/-- After a parent reassignment that passed the self and circular checks,
the reassigned goal itself lies on no cycle of the new table. -/
theorem no_cycle_at_goal (goals : List Goal) (A P : ℕ)
    (hPA : P ≠ A) (hreach : ¬ Reaches goals P A)
    (hA : (findGoal goals A).isSome) :
    ¬ Relation.TransGen (gstep (goals.map (setParentRow A P))) A A := by
  intro hcyc
  obtain ⟨y, hstep, hrest⟩ := Relation.TransGen.head'_iff.mp hcyc
  have hy : y = P := by
    have h1 : parentOf (goals.map (setParentRow A P)) A = some P :=
      parentOf_map_setParentRow_self goals A P hA
    have h2 : parentOf (goals.map (setParentRow A P)) A = some y := hstep
    rw [h1] at h2
    exact (Option.some_inj.mp h2).symm
  subst hy
  have hold : Relation.ReflTransGen (gstep goals) y A := by
    cases rtg_new_to_old goals A y y A hrest with
    | inl h => exact h
    | inr h => exact h.1
  rcases Relation.reflTransGen_iff_eq_or_transGen.mp hold with heq | htrans
  · exact hPA heq.symm
  · exact hreach htrans

/-- Acyclicity is preserved by a parent reassignment that passed the self
and circular checks. -/
theorem acyclic_after_setParent (goals : List Goal) (A P : ℕ)
    (hacyc : Acyclic goals) (hPA : P ≠ A) (hreach : ¬ Reaches goals P A)
    (hA : (findGoal goals A).isSome) :
    Acyclic (goals.map (setParentRow A P)) := by
  intro x hx
  by_cases hxA : x = A
  · exact no_cycle_at_goal goals A P hPA hreach hA (hxA ▸ hx)
  · obtain ⟨z, hstep, hrest⟩ := Relation.TransGen.head'_iff.mp hx
    have hstep' : gstep goals x z := by
      unfold gstep
      rw [← parentOf_map_setParentRow_ne goals A P x hxA]
      exact hstep
    cases rtg_new_to_old goals A P z x hrest with
    | inl h => exact hacyc x (Relation.TransGen.head' hstep' h)
    | inr h =>
      -- the cycle passes through `A`: rotate it into a cycle at `A`
      have hzA : Relation.ReflTransGen (gstep (goals.map (setParentRow A P))) z A :=
        rtg_old_to_new goals A P z h.1
      have hAA : Relation.TransGen (gstep (goals.map (setParentRow A P))) A A :=
        Relation.TransGen.trans_right h.2 (Relation.TransGen.head' hstep hzA)
      exact no_cycle_at_goal goals A P hPA hreach hA hAA

end Bizy.Backend

namespace Bizy

theorem isEmpty_map {α β : Type} (f : α → β) (l : List α) :
    (l.map f).isEmpty = l.isEmpty := by
  cases l <;> rfl

theorem list_sum_le_length_mul (l : List ℚ) (B : ℚ)
    (h : ∀ x ∈ l, x ≤ B) : l.sum ≤ (l.length : ℚ) * B := by
  induction l with
  | nil => simp
  | cons a t ih =>
    simp only [List.sum_cons, List.length_cons]
    have ha : a ≤ B := h a (List.mem_cons_self a t)
    have ht : t.sum ≤ (t.length : ℚ) * B := ih (fun x hx => h x (List.mem_cons_of_mem a hx))
    push_cast
    nlinarith [ht, ha]

theorem list_sum_nonneg (l : List ℚ) (h : ∀ x ∈ l, 0 ≤ x) : 0 ≤ l.sum := by
  induction l with
  | nil => simp
  | cons a t ih =>
    simp only [List.sum_cons]
    have ha : 0 ≤ a := h a (List.mem_cons_self a t)
    have ht : 0 ≤ t.sum := ih (fun x hx => h x (List.mem_cons_of_mem a hx))
    linarith

end Bizy

namespace Bizy.Backend


theorem roundHalfEven_intCast (z : ℤ) : roundHalfEven (z : ℚ) = z := by
  unfold roundHalfEven
  rw [Int.floor_intCast]
  norm_num

theorem pyround_intCast (z : ℤ) (n : ℕ) : pyround (z : ℚ) n = (z : ℚ) := by
  unfold pyround
  rw [show ((z : ℚ) * 10 ^ n) = ((z * 10 ^ n : ℤ) : ℚ) by push_cast; ring,
    roundHalfEven_intCast]
  push_cast
  rw [mul_div_assoc]
  norm_num

theorem calculate_goal_progress_percentage (goal : Goal) (tasks : List Task)
    (goals : List Goal) (now : ℚ) :
    (calculate_goal_progress goal tasks goals now).progress_percentage =
      pyround (progressValue goal tasks goals) 2 := by
  unfold calculate_goal_progress
  dsimp only
  split <;> rfl

theorem progressValue_eq_spec_combine (goal : Goal) (tasks : List Task)
    (goals : List Goal) :
    progressValue goal tasks goals =
      Spec.combine
        (Spec.task_ratio (completedTasksOfGoal tasks goal.id).length
          (tasksOfGoal tasks goal.id).length)
        (Spec.subgoal_ratio
          ((subgoalsOf goals goal.id).map (fun g => g.progress_percentage))) := by
  unfold progressValue Spec.combine Spec.task_ratio Spec.subgoal_ratio
  dsimp only
  by_cases htot : (tasksOfGoal tasks goal.id).length = 0 <;>
    by_cases hsub : (subgoalsOf goals goal.id).isEmpty
  · simp [htot, hsub, isEmpty_map]
  · simp [htot, hsub, isEmpty_map, List.length_map]
  · simp [htot, hsub, isEmpty_map, Nat.pos_of_ne_zero htot]
  · simp only [htot, hsub, isEmpty_map, Nat.pos_of_ne_zero htot, if_true,
      if_false, not_false_iff, and_self, Bool.false_eq_true, if_neg,
      List.length_map]
    ring

/-- C1 (amended): the backend progress computation persists exactly the
two-decimal rounding of the spec's combination — task ratio defined only
when the goal has direct tasks, subgoal ratio the mean of the direct
subgoals' stored progress, weighted half-and-half when both are defined,
the single defined ratio when only one is, 0 when neither is; in
particular 100% task completion with two direct subgoals at progress 100
and 0 persists 75.  (The agent planner's progress computation does not
satisfy the claim; see the counterexample.) -/
theorem C1_calculate_goal_progress_combination (goal : Goal)
    (tasks : List Task) (goals : List Goal) (now : ℚ) :
    (calculate_goal_progress goal tasks goals now).progress_percentage =
      pyround
        (Spec.combine
          (Spec.task_ratio (completedTasksOfGoal tasks goal.id).length
            (tasksOfGoal tasks goal.id).length)
          (Spec.subgoal_ratio
            ((subgoalsOf goals goal.id).map (fun g => g.progress_percentage)))) 2 ∧
    (calculate_goal_progress ⟨1, GoalStatus.active, 0, none, none, none⟩
      [⟨1, 3, TaskStatus.completed, some 0, none, some 1⟩]
      [⟨2, GoalStatus.active, 100, some 1, none, none⟩,
       ⟨3, GoalStatus.active, 0, some 1, none, none⟩] 0).progress_percentage
      = 75 := by
  constructor
  · rw [calculate_goal_progress_percentage, progressValue_eq_spec_combine]
  · rw [calculate_goal_progress_percentage, progressValue_eq_spec_combine]
    simp only [completedTasksOfGoal, tasksOfGoal, subgoalsOf, List.filter,
      Spec.task_ratio, Spec.subgoal_ratio, Spec.combine]
    norm_num
    rw [show ((75:ℚ) = ((75:ℤ) : ℚ)) by norm_num]
    exact pyround_intCast 75 2

theorem calculate_goal_progress_eq_pos (goal : Goal) (tasks : List Task)
    (goals : List Goal) (now : ℚ)
    (h : 100 ≤ pyround (progressValue goal tasks goals) 2)
    (ha : goal.status = GoalStatus.active) :
    calculate_goal_progress goal tasks goals now =
      { goal with
          progress_percentage := pyround (progressValue goal tasks goals) 2,
          status := GoalStatus.completed, completed_at := some now } := by
  unfold calculate_goal_progress
  dsimp only
  rw [if_pos ⟨h, ha⟩]

theorem calculate_goal_progress_eq_neg (goal : Goal) (tasks : List Task)
    (goals : List Goal) (now : ℚ)
    (h : ¬ (100 ≤ pyround (progressValue goal tasks goals) 2 ∧
        goal.status = GoalStatus.active)) :
    calculate_goal_progress goal tasks goals now =
      { goal with progress_percentage := pyround (progressValue goal tasks goals) 2 } := by
  unfold calculate_goal_progress
  dsimp only
  rw [if_neg h]

/-- C4 (amended): in the backend progress computation, an active goal whose
persisted progress reaches 100 is set to completed with the completion
instant stamped at that moment; a goal whose status is not active keeps its
status and completion instant, as does an active goal below 100.  (The
agent planner's `update_goal_progress` violates the claim: it transitions
goals of any status and stamps nothing; see the counterexample.) -/
theorem C4_backend_auto_complete (goal : Goal) (tasks : List Task)
    (goals : List Goal) (now : ℚ) :
    (goal.status = GoalStatus.active →
      100 ≤ (calculate_goal_progress goal tasks goals now).progress_percentage →
      (calculate_goal_progress goal tasks goals now).status = GoalStatus.completed ∧
      (calculate_goal_progress goal tasks goals now).completed_at = some now) ∧
    (goal.status ≠ GoalStatus.active →
      (calculate_goal_progress goal tasks goals now).status = goal.status ∧
      (calculate_goal_progress goal tasks goals now).completed_at = goal.completed_at) ∧
    (goal.status = GoalStatus.active →
      (calculate_goal_progress goal tasks goals now).progress_percentage < 100 →
      (calculate_goal_progress goal tasks goals now).status = GoalStatus.active ∧
      (calculate_goal_progress goal tasks goals now).completed_at = goal.completed_at) := by
  by_cases hc : 100 ≤ pyround (progressValue goal tasks goals) 2 ∧
      goal.status = GoalStatus.active
  · rw [calculate_goal_progress_eq_pos goal tasks goals now hc.1 hc.2]
    refine ⟨fun _ _ => ⟨rfl, rfl⟩, fun hne => absurd hc.2 hne, fun _ hlt => ?_⟩
    exact absurd hc.1 (not_le.mpr hlt)
  · rw [calculate_goal_progress_eq_neg goal tasks goals now hc]
    refine ⟨fun hact h100 => absurd ⟨h100, hact⟩ hc, fun _ => ⟨rfl, rfl⟩,
      fun hact _ => ⟨hact, rfl⟩⟩

theorem C4_backend_auto_complete_witness :
    (calculate_goal_progress ⟨1, GoalStatus.active, 0, none, none, none⟩
      [⟨1, 3, TaskStatus.completed, some 0, none, some 1⟩] [] 5).status =
        GoalStatus.completed ∧
    (calculate_goal_progress ⟨1, GoalStatus.active, 0, none, none, none⟩
      [⟨1, 3, TaskStatus.completed, some 0, none, some 1⟩] [] 5).completed_at =
        some 5 := by
  refine (C4_backend_auto_complete ⟨1, GoalStatus.active, 0, none, none, none⟩
    [⟨1, 3, TaskStatus.completed, some 0, none, some 1⟩] [] 5).1 rfl ?_
  rw [calculate_goal_progress_percentage]
  have h : progressValue ⟨1, GoalStatus.active, 0, none, none, none⟩
      [⟨1, 3, TaskStatus.completed, some 0, none, some 1⟩] [] = ((100:ℤ) : ℚ) := by
    simp [progressValue, tasksOfGoal, completedTasksOfGoal, subgoalsOf]
  rw [h, pyround_intCast]
  norm_num

/-- C4 counterexample: the agent planner's `update_goal_progress` marks an
`on_hold` goal completed when handed progress 100, although the claim says
only active goals are transitioned, and the agent goal model has no
completion instant to stamp. -/
theorem C4_counterexample_planner_transitions_non_active :
    (Agent.update_goal_progress ⟨1, "on_hold", 0, none⟩ 100).status =
      "completed" ∧ ("on_hold" : String) ≠ "active" := by
  constructor
  · norm_num [Agent.update_goal_progress]
  · decide

/-- C1 counterexample: on a goal with one completed direct task and one
direct subgoal at progress 0, the spec combination prescribes 50, but the
agent planner's progress computation returns and persists 100 — it reads
only the direct tasks and never the subgoals, and persists without
rounding. -/
theorem C1_counterexample_planner_ignores_subgoals :
    (Agent.calculate_goal_progress ⟨1, "active", 0, none⟩
      [⟨1, "completed", some 0, some 1⟩]).2 = 100 ∧
    ((Agent.calculate_goal_progress ⟨1, "active", 0, none⟩
      [⟨1, "completed", some 0, some 1⟩]).1).progress_percentage = 100 ∧
    Spec.combine (Spec.task_ratio 1 1) (Spec.subgoal_ratio [0]) = 50 ∧
    (100 : ℚ) ≠ 50 := by
  refine ⟨?_, ?_, ?_, by norm_num⟩
  · norm_num [Agent.calculate_goal_progress, Agent.get_tasks_by_goal,
      Agent.update_goal_progress]
  · norm_num [Agent.calculate_goal_progress, Agent.get_tasks_by_goal,
      Agent.update_goal_progress]
  · norm_num [Spec.combine, Spec.task_ratio, Spec.subgoal_ratio]

/-- C8 (amended): the value persisted by the backend progress computation
lies in [0, 100] whenever every goal's stored progress does — the formula
is a convex combination of a task ratio in [0, 100] and a mean of stored
subgoal values, and two-decimal rounding preserves the bounds; no explicit
clamp exists, and the agent's explicit progress update persists its
argument unclamped (see the counterexample). -/
theorem C8_backend_progress_in_range (goal : Goal) (tasks : List Task)
    (goals : List Goal) (now : ℚ)
    (h : ∀ g ∈ goals, 0 ≤ g.progress_percentage ∧ g.progress_percentage ≤ 100) :
    0 ≤ (calculate_goal_progress goal tasks goals now).progress_percentage ∧
    (calculate_goal_progress goal tasks goals now).progress_percentage ≤ 100 := by
  rw [calculate_goal_progress_percentage]
  have hrange : 0 ≤ progressValue goal tasks goals ∧
      progressValue goal tasks goals ≤ 100 := by
    have htask1 : (tasksOfGoal tasks goal.id).length > 0 →
        (0:ℚ) ≤ ((completedTasksOfGoal tasks goal.id).length : ℚ) /
            ((tasksOfGoal tasks goal.id).length : ℚ) * 100 ∧
          ((completedTasksOfGoal tasks goal.id).length : ℚ) /
            ((tasksOfGoal tasks goal.id).length : ℚ) * 100 ≤ 100 := by
      intro hpos
      have hle : (completedTasksOfGoal tasks goal.id).length ≤
          (tasksOfGoal tasks goal.id).length :=
        List.length_filter_le _ _
      have hposQ : (0:ℚ) < ((tasksOfGoal tasks goal.id).length : ℚ) := by
        exact_mod_cast hpos
      constructor
      · positivity
      · have hdiv : ((completedTasksOfGoal tasks goal.id).length : ℚ) /
            ((tasksOfGoal tasks goal.id).length : ℚ) ≤ 1 := by
          rw [div_le_one hposQ]
          exact_mod_cast hle
        nlinarith
    have hsub1 : ¬ (subgoalsOf goals goal.id).isEmpty →
        (0:ℚ) ≤ ((subgoalsOf goals goal.id).map
            (fun sg => sg.progress_percentage)).sum /
            ((subgoalsOf goals goal.id).length : ℚ) ∧
          ((subgoalsOf goals goal.id).map
            (fun sg => sg.progress_percentage)).sum /
            ((subgoalsOf goals goal.id).length : ℚ) ≤ 100 := by
      intro hne
      have hmem : ∀ x ∈ (subgoalsOf goals goal.id).map
          (fun sg => sg.progress_percentage), 0 ≤ x ∧ x ≤ 100 := by
        intro x hx
        obtain ⟨g, hg, rfl⟩ := List.mem_map.mp hx
        exact h g (List.mem_of_mem_filter hg)
      have hlen : (0:ℚ) < ((subgoalsOf goals goal.id).length : ℚ) := by
        have hne0 : (subgoalsOf goals goal.id).length ≠ 0 := by
          intro h0
          rw [List.isEmpty_iff_length_eq_zero] at hne
          exact hne (by simpa using h0)
        exact_mod_cast Nat.pos_of_ne_zero hne0
      have hs0 : 0 ≤ ((subgoalsOf goals goal.id).map
          (fun sg => sg.progress_percentage)).sum :=
        list_sum_nonneg _ (fun x hx => (hmem x hx).1)
      have hs100 : ((subgoalsOf goals goal.id).map
          (fun sg => sg.progress_percentage)).sum ≤
          (((subgoalsOf goals goal.id).map
            (fun sg => sg.progress_percentage)).length : ℚ) * 100 :=
        list_sum_le_length_mul _ 100 (fun x hx => (hmem x hx).2)
      rw [List.length_map] at hs100
      constructor
      · positivity
      · rw [div_le_iff₀ hlen]
        linarith
    unfold progressValue
    dsimp only
    split
    · rename_i hcond
      rw [if_pos hcond.1, if_pos hcond.2]
      have h1 := htask1 hcond.1
      have h2 := hsub1 hcond.2
      constructor
      · nlinarith [h1.1, h2.1]
      · nlinarith [h1.2, h2.2]
    · split
      · rename_i hpos
        exact htask1 hpos
      · split
        · rename_i hne
          exact hsub1 hne
        · norm_num
  exact ⟨pyround_nonneg 2 hrange.1, pyround_le 2 hrange.2 ⟨100, by norm_num⟩⟩

theorem C8_backend_progress_in_range_witness :
    0 ≤ (calculate_goal_progress ⟨1, GoalStatus.active, 0, none, none, none⟩ []
      [⟨2, GoalStatus.active, 50, some 1, none, none⟩] 0).progress_percentage ∧
    (calculate_goal_progress ⟨1, GoalStatus.active, 0, none, none, none⟩ []
      [⟨2, GoalStatus.active, 50, some 1, none, none⟩] 0).progress_percentage
      ≤ 100 := by
  refine C8_backend_progress_in_range ⟨1, GoalStatus.active, 0, none, none, none⟩
    [] [⟨2, GoalStatus.active, 50, some 1, none, none⟩] 0 ?_
  intro g hg
  rcases List.mem_singleton.mp hg with rfl
  norm_num

/-- C8 counterexample: the agent's explicit progress update persists its
argument without any clamping, so a stored `progress_percentage` of 150 —
outside [0, 100] — is reachable in one operation. -/
theorem C8_counterexample_unclamped_update :
    (Agent.update_goal_progress ⟨1, "active", 0, none⟩ 150).progress_percentage
      = 150 ∧ ¬ ((150:ℚ) ≤ 100) := by
  constructor
  · norm_num [Agent.update_goal_progress]
  · norm_num

/-- C9 (amended): the dedicated lifecycle routes maintain the invariant —
completing a task sets status completed and stamps `completed_at` with the
current instant, reverting sets status pending and clears it, and both
results satisfy `completed_at` present iff status completed.  (The generic
update operation can break the invariant because its schema carries a
status but never touches `completed_at`; see the counterexample.) -/
theorem C9_complete_uncomplete_maintain_inv (task : Task) (now : ℚ)
    (actual_hours : Option ℚ) :
    (∀ t', complete_task task now actual_hours = Except.ok t' →
      t'.status = TaskStatus.completed ∧ t'.completed_at = some now ∧
        taskInv t') ∧
    (∀ t', uncomplete_task task = Except.ok t' →
      t'.status = TaskStatus.pending ∧ t'.completed_at = none ∧ taskInv t') := by
  constructor
  · intro t' hok
    unfold complete_task at hok
    split at hok
    · cases hok
    · cases hah : actual_hours with
      | some hrs =>
        rw [hah] at hok
        simp only [Except.ok.injEq] at hok
        subst hok
        refine ⟨rfl, rfl, ?_⟩
        unfold taskInv
        simp
      | none =>
        rw [hah] at hok
        simp only [Except.ok.injEq] at hok
        subst hok
        refine ⟨rfl, rfl, ?_⟩
        unfold taskInv
        simp
  · intro t' hok
    unfold uncomplete_task at hok
    split at hok
    · cases hok
    · simp only [Except.ok.injEq] at hok
      subst hok
      refine ⟨rfl, rfl, ?_⟩
      unfold taskInv
      simp

theorem C9_complete_uncomplete_maintain_inv_witness :
    ((complete_task ⟨1, 3, TaskStatus.pending, none, none, none⟩ 5 none =
        Except.ok ⟨1, 3, TaskStatus.completed, some 5, none, none⟩) ∧
      (⟨1, 3, TaskStatus.completed, some 5, none, none⟩ : Task).status =
        TaskStatus.completed ∧
      (⟨1, 3, TaskStatus.completed, some 5, none, none⟩ : Task).completed_at =
        some 5 ∧
      taskInv ⟨1, 3, TaskStatus.completed, some 5, none, none⟩) ∧
    ((uncomplete_task ⟨2, 3, TaskStatus.completed, some 7, none, none⟩ =
        Except.ok ⟨2, 3, TaskStatus.pending, none, none, none⟩) ∧
      taskInv ⟨2, 3, TaskStatus.pending, none, none, none⟩) := by
  have h1 : complete_task ⟨1, 3, TaskStatus.pending, none, none, none⟩ 5 none =
      Except.ok ⟨1, 3, TaskStatus.completed, some 5, none, none⟩ := by
    unfold complete_task
    simp
  have h2 : uncomplete_task ⟨2, 3, TaskStatus.completed, some 7, none, none⟩ =
      Except.ok ⟨2, 3, TaskStatus.pending, none, none, none⟩ := by
    unfold uncomplete_task
    simp
  have hc := (C9_complete_uncomplete_maintain_inv
    ⟨1, 3, TaskStatus.pending, none, none, none⟩ 5 none).1 _ h1
  have hu := (C9_complete_uncomplete_maintain_inv
    ⟨2, 3, TaskStatus.completed, some 7, none, none⟩ 7 none).2 _ h2
  exact ⟨⟨h1, hc.1, hc.2.1, hc.2.2⟩, ⟨h2, hu.2.2⟩⟩

/-- C9 counterexample: the generic task update sets the status field
independently of `completed_at`, so updating a pending task's status to
completed yields a completed task with no completion timestamp — the
claimed invariant fails after one ordinary update operation. -/
theorem C9_counterexample_update_task_breaks_inv :
    (update_task ⟨1, 3, TaskStatus.pending, none, none, none⟩
      { status := some TaskStatus.completed }).status = TaskStatus.completed ∧
    (update_task ⟨1, 3, TaskStatus.pending, none, none, none⟩
      { status := some TaskStatus.completed }).completed_at = none ∧
    ¬ taskInv (update_task ⟨1, 3, TaskStatus.pending, none, none, none⟩
      { status := some TaskStatus.completed }) := by
  refine ⟨rfl, rfl, ?_⟩
  intro hinv
  have h1 : (update_task ⟨1, 3, TaskStatus.pending, none, none, none⟩
      { status := some TaskStatus.completed }).status = TaskStatus.completed := rfl
  have h2 := hinv.mpr h1
  exact h2 rfl

end Bizy.Backend

namespace Bizy.Spec

/-- Per the spec: the number of tasks whose `completed_at` falls within
`[now - window_days, now]`. -/
def completions_in_window (tasks : List Agent.Task) (window_days now : ℚ) : ℕ :=
  (tasks.filter (fun t =>
    match t.completed_at with
    | some c => decide (now - window_days ≤ c) && decide (c ≤ now)
    | none => false)).length

end Bizy.Spec

namespace Bizy.Agent

/-- C3 (confirmed): on any task collection satisfying the data-model
invariant that `completed_at` is present exactly on completed tasks, the
velocity equals the number of tasks completed within
`[now - window_days, now]` divided by the window length, and it is the
defined value 0 — not an error — when no task qualifies. -/
theorem C3_get_task_velocity_spec (tasks : List Task) (days now : ℚ)
    (hinv : ∀ t ∈ tasks, t.completed_at ≠ none ↔ t.status = "completed") :
    get_task_velocity tasks days now =
      (Spec.completions_in_window tasks days now : ℚ) / days ∧
    (Spec.completions_in_window tasks days now = 0 →
      get_task_velocity tasks days now = 0) := by
  have hfilter : get_completed_tasks_this_week tasks days now =
      tasks.filter (fun t =>
        match t.completed_at with
        | some c => decide (now - days ≤ c) && decide (c ≤ now)
        | none => false) := by
    unfold get_completed_tasks_this_week
    apply List.filter_congr
    intro t ht
    cases hc : t.completed_at with
    | none =>
      simp only [hc]
      have : ¬ t.status = "completed" := by
        intro hs
        exact ((hinv t ht).mpr hs) hc
      simp [this]
    | some c =>
      simp only [hc]
      have hs : t.status = "completed" := (hinv t ht).mp (by simp [hc])
      simp [hs]
  have hmain : get_task_velocity tasks days now =
      (Spec.completions_in_window tasks days now : ℚ) / days := by
    unfold get_task_velocity Spec.completions_in_window
    rw [hfilter]
    dsimp only
    split
    · rename_i hemp
      rw [List.isEmpty_iff_length_eq_zero] at hemp
      rw [hemp]
      norm_num
    · rfl
  exact ⟨hmain, fun h0 => by rw [hmain, h0]; norm_num⟩

theorem C3_get_task_velocity_spec_witness :
    (get_task_velocity
        ((List.range 10).map (fun i =>
          (⟨i, "completed", some ((i : ℚ) + 1), none⟩ : Task))) 30 30 =
      (Spec.completions_in_window
        ((List.range 10).map (fun i =>
          (⟨i, "completed", some ((i : ℚ) + 1), none⟩ : Task))) 30 30 : ℚ) / 30) ∧
    get_task_velocity
        ((List.range 10).map (fun i =>
          (⟨i, "completed", some ((i : ℚ) + 1), none⟩ : Task))) 30 30 = 1/3 := by
  have hinv : ∀ t ∈ (List.range 10).map (fun i =>
      (⟨i, "completed", some ((i : ℚ) + 1), none⟩ : Task)),
      t.completed_at ≠ none ↔ t.status = "completed" := by
    intro t ht
    obtain ⟨i, _, rfl⟩ := List.mem_map.mp ht
    simp
  refine ⟨(C3_get_task_velocity_spec _ 30 30 hinv).1, ?_⟩
  norm_num [get_task_velocity, get_completed_tasks_this_week, List.range,
    List.range.loop, List.filter]

theorem not_decide_lt (a b : ℚ) : (!decide (b < a)) = decide (a ≤ b) := by
  by_cases h : a ≤ b
  · simp [h, not_lt.mpr h]
  · simp [h, lt_of_not_ge h]

/-- C6 (confirmed): for an existing goal, the prediction is `complete`
exactly when no pending/in_progress task remains under it (independent of
velocity); otherwise it is `no_velocity` exactly when the trailing velocity
is 0; otherwise it is `predicted` with `days_needed = remaining/velocity`,
`predicted_completion = now + days_needed`, and, when a target date is set,
the on-track flag holds exactly when `days_needed` is at most the whole
days until the target. -/
theorem C6_predict_goal_completion_spec (goal : Goal) (tasks : List Task)
    (velocity_days now : ℚ) :
    (predict_goal_completion goal tasks velocity_days now =
        PredictResult.complete 0 ↔
      (remainingTasksOf tasks goal.id).length = 0) ∧
    ((remainingTasksOf tasks goal.id).length ≠ 0 →
      (predict_goal_completion goal tasks velocity_days now =
          PredictResult.no_velocity (remainingTasksOf tasks goal.id).length ↔
        get_task_velocity tasks velocity_days now = 0)) ∧
    ((remainingTasksOf tasks goal.id).length ≠ 0 →
      get_task_velocity tasks velocity_days now ≠ 0 →
      goal.target_date = none →
      predict_goal_completion goal tasks velocity_days now =
        PredictResult.predicted (remainingTasksOf tasks goal.id).length
          (get_task_velocity tasks velocity_days now)
          (((remainingTasksOf tasks goal.id).length : ℚ) /
            get_task_velocity tasks velocity_days now)
          (now + ((remainingTasksOf tasks goal.id).length : ℚ) /
            get_task_velocity tasks velocity_days now)
          true) ∧
    (∀ td : ℚ, (remainingTasksOf tasks goal.id).length ≠ 0 →
      get_task_velocity tasks velocity_days now ≠ 0 →
      goal.target_date = some td →
      predict_goal_completion goal tasks velocity_days now =
        PredictResult.predicted (remainingTasksOf tasks goal.id).length
          (get_task_velocity tasks velocity_days now)
          (((remainingTasksOf tasks goal.id).length : ℚ) /
            get_task_velocity tasks velocity_days now)
          (now + ((remainingTasksOf tasks goal.id).length : ℚ) /
            get_task_velocity tasks velocity_days now)
          (decide (((remainingTasksOf tasks goal.id).length : ℚ) /
            get_task_velocity tasks velocity_days now ≤ ((⌊td - now⌋ : ℤ) : ℚ)))) := by
  unfold predict_goal_completion
  dsimp only
  by_cases hemp : (remainingTasksOf tasks goal.id).isEmpty
  · rw [if_pos hemp]
    rw [List.isEmpty_iff_length_eq_zero] at hemp
    refine ⟨⟨fun _ => hemp, fun _ => rfl⟩, ?_, ?_, ?_⟩
    · intro hne
      exact absurd hemp hne
    · intro hne
      exact absurd hemp hne
    · intro td hne
      exact absurd hemp hne
  · rw [if_neg hemp]
    have hlen : (remainingTasksOf tasks goal.id).length ≠ 0 := by
      intro h0
      exact hemp (List.isEmpty_iff_length_eq_zero.mpr h0)
    by_cases hv : get_task_velocity tasks velocity_days now = 0
    · rw [if_pos hv]
      refine ⟨⟨fun h => ?_, fun h => absurd h hlen⟩,
        fun _ => ⟨fun _ => hv, fun _ => rfl⟩, fun _ hv' => absurd hv hv',
        fun td _ hv' => absurd hv hv'⟩
      cases h
    · rw [if_neg hv]
      refine ⟨⟨fun h => ?_, fun h => absurd h hlen⟩,
        fun _ => ⟨fun h => ?_, fun h => absurd h hv⟩, fun _ _ htd => ?_,
        fun td _ _ htd => ?_⟩
      · cases h
      · cases h
      · rw [htd]
      · rw [htd]
        dsimp only
        rw [not_decide_lt]

theorem C6_predict_goal_completion_spec_witness :
    (predict_goal_completion ⟨1, "active", 0, none⟩ [] 30 0 =
      PredictResult.complete 0) ∧
    (predict_goal_completion ⟨1, "active", 0, none⟩
      [⟨1, "pending", none, some 1⟩] 30 0 =
      PredictResult.no_velocity 1) := by
  constructor
  · exact (C6_predict_goal_completion_spec ⟨1, "active", 0, none⟩ [] 30 0).1.mpr
      rfl
  · refine ((C6_predict_goal_completion_spec ⟨1, "active", 0, none⟩
      [⟨1, "pending", none, some 1⟩] 30 0).2.1 (by norm_num
        [remainingTasksOf, List.filter])).mpr ?_
    norm_num [get_task_velocity, get_completed_tasks_this_week, List.filter]

/-- C7 (confirmed): for an existing goal with a target date, the required
velocity result is `complete` exactly when no pending/in_progress task
remains; otherwise `overdue` exactly when the whole days until the target
are ≤ 0; otherwise `calculated` with `required = remaining/days_until`,
`current` the 7-day velocity, `gap = required - current`, and the feasible
flag holding exactly when `gap ≤ current * 0.5`, the comparison being
inclusive. -/
theorem C7_calculate_required_velocity_spec (goal : Goal) (tasks : List Task)
    (now td : ℚ) (htd : goal.target_date = some td) :
    (calculate_required_velocity goal tasks now = RequiredResult.complete ↔
      (remainingTasksOf tasks goal.id).length = 0) ∧
    ((remainingTasksOf tasks goal.id).length ≠ 0 →
      (calculate_required_velocity goal tasks now =
          RequiredResult.overdue (remainingTasksOf tasks goal.id).length ↔
        ⌊td - now⌋ ≤ 0)) ∧
    ((remainingTasksOf tasks goal.id).length ≠ 0 → 0 < ⌊td - now⌋ →
      calculate_required_velocity goal tasks now =
        RequiredResult.calculated (remainingTasksOf tasks goal.id).length
          ⌊td - now⌋
          (((remainingTasksOf tasks goal.id).length : ℚ) / ((⌊td - now⌋ : ℤ) : ℚ))
          (get_task_velocity tasks 7 now)
          (((remainingTasksOf tasks goal.id).length : ℚ) / ((⌊td - now⌋ : ℤ) : ℚ) -
            get_task_velocity tasks 7 now)
          (decide
            (((remainingTasksOf tasks goal.id).length : ℚ) / ((⌊td - now⌋ : ℤ) : ℚ) -
              get_task_velocity tasks 7 now ≤
              get_task_velocity tasks 7 now * (1/2)))) := by
  unfold calculate_required_velocity
  rw [htd]
  dsimp only
  by_cases h0 : (remainingTasksOf tasks goal.id).length = 0
  · rw [if_pos h0]
    refine ⟨⟨fun _ => h0, fun _ => rfl⟩, fun hne => absurd h0 hne,
      fun hne => absurd h0 hne⟩
  · rw [if_neg h0]
    by_cases hd : ⌊td - now⌋ ≤ 0
    · rw [if_pos hd]
      refine ⟨⟨fun h => ?_, fun h => absurd h h0⟩,
        fun _ => ⟨fun _ => hd, fun _ => rfl⟩, fun _ hdt => absurd hd (not_le.mpr hdt)⟩
      cases h
    · rw [if_neg hd]
      refine ⟨⟨fun h => ?_, fun h => absurd h h0⟩,
        fun _ => ⟨fun h => ?_, fun h => absurd h hd⟩, fun _ _ => rfl⟩
      · cases h
      · cases h

theorem C7_calculate_required_velocity_spec_witness :
    calculate_required_velocity ⟨1, "active", 0, some 3⟩
      ((List.range 9).map (fun i => (⟨i, "pending", none, some 1⟩ : Task)) ++
        (List.range 14).map (fun i =>
          (⟨20 + i, "completed", some (-1), none⟩ : Task))) 0 =
      RequiredResult.calculated 9 3 3 2 1 true := by
  have h := (C7_calculate_required_velocity_spec ⟨1, "active", 0, some 3⟩
    ((List.range 9).map (fun i => (⟨i, "pending", none, some 1⟩ : Task)) ++
      (List.range 14).map (fun i =>
        (⟨20 + i, "completed", some (-1), none⟩ : Task))) 0 3 rfl).2.2
  have hlen : (remainingTasksOf
      ((List.range 9).map (fun i => (⟨i, "pending", none, some 1⟩ : Task)) ++
        (List.range 14).map (fun i =>
          (⟨20 + i, "completed", some (-1), none⟩ : Task))) 1).length = 9 := by
    rfl
  have hvel : get_task_velocity
      ((List.range 9).map (fun i => (⟨i, "pending", none, some 1⟩ : Task)) ++
        (List.range 14).map (fun i =>
          (⟨20 + i, "completed", some (-1), none⟩ : Task))) 7 0 = 2 := by
    norm_num [get_task_velocity, get_completed_tasks_this_week, List.range,
      List.range.loop, List.filter]
  have hfloor : ⌊(3:ℚ) - 0⌋ = 3 := by norm_num
  rw [h (by rw [hlen]; norm_num) (by rw [hfloor]; norm_num), hlen, hvel, hfloor]
  norm_num

end Bizy.Agent

namespace Bizy.Backend

theorem get_velocity_metrics_trend_eq (tasks : List Task) (days : ℕ) (now : ℚ) :
    (get_velocity_metrics tasks days now).completion_trend =
      (if secondHalfVelocity tasks days now >
          firstHalfVelocity tasks days now * (11/10) then Trend.improving
       else if secondHalfVelocity tasks days now <
          firstHalfVelocity tasks days now * (9/10) then Trend.declining
       else Trend.stable) := by
  rfl

theorem firstHalfVelocity_nonneg (tasks : List Task) (days : ℕ) (now : ℚ) :
    0 ≤ firstHalfVelocity tasks days now := by
  unfold firstHalfVelocity
  dsimp only
  positivity

/-- C5 (confirmed): the trend computation splits the window at its midpoint
into two half-windows of equal length `days/2`, and classifies `improving`
exactly when the second-half velocity exceeds 1.1 times the first-half
velocity, `declining` exactly when it is below 0.9 times it, and `stable`
otherwise; a second half 20% above a positive first half is `improving`,
20% below is `declining`, and anything within ±10% is `stable`. -/
theorem C5_velocity_metrics_trend_spec (tasks : List Task) (days : ℕ)
    (now : ℚ) :
    (((now - (days:ℚ)) + (days:ℚ)/2) - (now - (days:ℚ)) = (days:ℚ)/2 ∧
      now - ((now - (days:ℚ)) + (days:ℚ)/2) = (days:ℚ)/2) ∧
    ((get_velocity_metrics tasks days now).completion_trend = Trend.improving ↔
      secondHalfVelocity tasks days now >
        firstHalfVelocity tasks days now * (11/10)) ∧
    ((get_velocity_metrics tasks days now).completion_trend = Trend.declining ↔
      secondHalfVelocity tasks days now <
        firstHalfVelocity tasks days now * (9/10)) ∧
    ((get_velocity_metrics tasks days now).completion_trend = Trend.stable ↔
      (¬ secondHalfVelocity tasks days now >
          firstHalfVelocity tasks days now * (11/10) ∧
        ¬ secondHalfVelocity tasks days now <
          firstHalfVelocity tasks days now * (9/10))) ∧
    (secondHalfVelocity tasks days now =
        firstHalfVelocity tasks days now * (12/10) →
      0 < firstHalfVelocity tasks days now →
      (get_velocity_metrics tasks days now).completion_trend = Trend.improving) ∧
    (secondHalfVelocity tasks days now =
        firstHalfVelocity tasks days now * (8/10) →
      0 < firstHalfVelocity tasks days now →
      (get_velocity_metrics tasks days now).completion_trend = Trend.declining) ∧
    (firstHalfVelocity tasks days now * (9/10) ≤
        secondHalfVelocity tasks days now →
      secondHalfVelocity tasks days now ≤
        firstHalfVelocity tasks days now * (11/10) →
      (get_velocity_metrics tasks days now).completion_trend = Trend.stable) := by
  have hf0 : 0 ≤ firstHalfVelocity tasks days now :=
    firstHalfVelocity_nonneg tasks days now
  refine ⟨⟨by ring, by ring⟩, ?_⟩
  rw [get_velocity_metrics_trend_eq]
  by_cases h1 : secondHalfVelocity tasks days now >
      firstHalfVelocity tasks days now * (11/10)
  · rw [if_pos h1]
    refine ⟨⟨fun _ => h1, fun _ => rfl⟩,
      ⟨fun h => Trend.noConfusion h, fun h2 => ?_⟩,
      ⟨fun h => Trend.noConfusion h, fun h2 => absurd h1 h2.1⟩, fun _ _ => rfl,
      fun he hfp => ?_, fun hl hr => ?_⟩
    · exfalso
      linarith
    · exfalso
      rw [he] at h1
      linarith
    · exfalso
      linarith
  · rw [if_neg h1]
    by_cases h2 : secondHalfVelocity tasks days now <
        firstHalfVelocity tasks days now * (9/10)
    · rw [if_pos h2]
      refine ⟨⟨fun h => Trend.noConfusion h, fun hi => absurd hi h1⟩,
        ⟨fun _ => h2, fun _ => rfl⟩,
        ⟨fun h => Trend.noConfusion h, fun hp => absurd h2 hp.2⟩,
        fun he hfp => ?_, fun _ _ => rfl, fun hl hr => ?_⟩
      · exfalso
        rw [he] at h2
        linarith
      · exfalso
        linarith
    · rw [if_neg h2]
      refine ⟨⟨fun h => Trend.noConfusion h, fun hi => absurd hi h1⟩,
        ⟨fun h => Trend.noConfusion h, fun hd => absurd hd h2⟩,
        ⟨fun _ => ⟨h1, h2⟩, fun _ => rfl⟩,
        fun he hfp => ?_, fun he hfp => ?_, fun _ _ => rfl⟩
      · exfalso
        rw [he] at h1
        exact h1 (by linarith)
      · exfalso
        rw [he] at h2
        exact h2 (by linarith)

theorem C5_velocity_metrics_trend_spec_witness :
    (get_velocity_metrics
      [⟨1, 3, TaskStatus.completed, some 1, none, none⟩,
       ⟨2, 3, TaskStatus.completed, some 2, none, none⟩,
       ⟨3, 3, TaskStatus.completed, some 3, none, none⟩,
       ⟨4, 3, TaskStatus.completed, some 4, none, none⟩,
       ⟨5, 3, TaskStatus.completed, some 5, none, none⟩,
       ⟨6, 3, TaskStatus.completed, some 16, none, none⟩,
       ⟨7, 3, TaskStatus.completed, some 17, none, none⟩,
       ⟨8, 3, TaskStatus.completed, some 18, none, none⟩,
       ⟨9, 3, TaskStatus.completed, some 19, none, none⟩,
       ⟨10, 3, TaskStatus.completed, some 20, none, none⟩,
       ⟨11, 3, TaskStatus.completed, some 21, none, none⟩] 30 30).completion_trend =
      Trend.improving := by
  have hf : firstHalfVelocity
      [⟨1, 3, TaskStatus.completed, some 1, none, none⟩,
       ⟨2, 3, TaskStatus.completed, some 2, none, none⟩,
       ⟨3, 3, TaskStatus.completed, some 3, none, none⟩,
       ⟨4, 3, TaskStatus.completed, some 4, none, none⟩,
       ⟨5, 3, TaskStatus.completed, some 5, none, none⟩,
       ⟨6, 3, TaskStatus.completed, some 16, none, none⟩,
       ⟨7, 3, TaskStatus.completed, some 17, none, none⟩,
       ⟨8, 3, TaskStatus.completed, some 18, none, none⟩,
       ⟨9, 3, TaskStatus.completed, some 19, none, none⟩,
       ⟨10, 3, TaskStatus.completed, some 20, none, none⟩,
       ⟨11, 3, TaskStatus.completed, some 21, none, none⟩] 30 30 = 1/3 := by
    norm_num [firstHalfVelocity, completedInWindow, List.filter]
  have hs : secondHalfVelocity
      [⟨1, 3, TaskStatus.completed, some 1, none, none⟩,
       ⟨2, 3, TaskStatus.completed, some 2, none, none⟩,
       ⟨3, 3, TaskStatus.completed, some 3, none, none⟩,
       ⟨4, 3, TaskStatus.completed, some 4, none, none⟩,
       ⟨5, 3, TaskStatus.completed, some 5, none, none⟩,
       ⟨6, 3, TaskStatus.completed, some 16, none, none⟩,
       ⟨7, 3, TaskStatus.completed, some 17, none, none⟩,
       ⟨8, 3, TaskStatus.completed, some 18, none, none⟩,
       ⟨9, 3, TaskStatus.completed, some 19, none, none⟩,
       ⟨10, 3, TaskStatus.completed, some 20, none, none⟩,
       ⟨11, 3, TaskStatus.completed, some 21, none, none⟩] 30 30 = 2/5 := by
    norm_num [secondHalfVelocity, completedInWindow, List.filter]
  refine (C5_velocity_metrics_trend_spec _ 30 30).2.2.2.2.1 ?_ ?_
  · rw [hf, hs]
    norm_num
  · rw [hf]
    norm_num

theorem pyround_zero (n : ℕ) : pyround 0 n = 0 := by
  rw [show (0:ℚ) = ((0:ℤ) : ℚ) by norm_num, pyround_intCast]

/-- C10 (confirmed): when the window holds no completed task, the velocity
metrics report velocity 0, no best day, no worst day, a `stable` trend
(both half-window velocities are 0), and productivity score exactly 6 —
the stable-trend bonus 30 at weight 0.2 — which is not 0; moreover the
worst day is omitted whenever the daily breakdown has fewer than two
distinct dates. -/
theorem C10_velocity_metrics_empty_window (tasks : List Task) (days : ℕ)
    (now : ℚ) :
    (completedInWindow tasks days now = [] →
      (get_velocity_metrics tasks days now).velocity = 0 ∧
      (get_velocity_metrics tasks days now).best_day = none ∧
      (get_velocity_metrics tasks days now).worst_day = none ∧
      (get_velocity_metrics tasks days now).completion_trend = Trend.stable ∧
      (get_velocity_metrics tasks days now).productivity_score = 6 ∧
      (get_velocity_metrics tasks days now).productivity_score ≠ 0) ∧
    ((firstOccurrences ((completedInWindow tasks days now).map taskDate)).length
        < 2 →
      (get_velocity_metrics tasks days now).worst_day = none) := by
  constructor
  · intro h
    have hfh : firstHalfVelocity tasks days now = 0 := by
      unfold firstHalfVelocity
      rw [h]
      simp
    have hsh : secondHalfVelocity tasks days now = 0 := by
      unfold secondHalfVelocity
      rw [h]
      simp
    have hvel : (if days > 0 then
        ((([] : List Task).length : ℚ) / (days : ℚ)) else 0) = 0 := by
      simp
    have hdates : firstOccurrences (List.map taskDate ([] : List Task)) = [] := by
      simp [firstOccurrences]
    have htrend : (if (0:ℚ) > 0 * (11/10) then Trend.improving
        else if (0:ℚ) < 0 * (9/10) then Trend.declining else Trend.stable)
        = Trend.stable := by
      norm_num
    have h6 : ((6:ℚ) = ((6:ℤ) : ℚ)) := by norm_num
    unfold get_velocity_metrics
    dsimp only
    rw [h, hfh, hsh, hdates, hvel, htrend]
    refine ⟨pyround_zero 2, rfl, ?_, rfl, ?_, ?_⟩
    · rw [if_neg (by norm_num)]
    · norm_num
      rw [if_neg (fun hh => Trend.noConfusion hh),
        show ((100:ℚ) ⊓ 6) = ((6:ℤ):ℚ) by norm_num, pyround_intCast]
      norm_num
    · norm_num
      rw [if_neg (fun hh => Trend.noConfusion hh),
        show ((100:ℚ) ⊓ 6) = ((6:ℤ):ℚ) by norm_num, pyround_intCast]
      norm_num
  · intro hlen
    unfold get_velocity_metrics
    dsimp only
    rw [if_neg (by omega)]

theorem C10_velocity_metrics_empty_window_witness :
    (get_velocity_metrics [] 30 0).velocity = 0 ∧
    (get_velocity_metrics [] 30 0).best_day = none ∧
    (get_velocity_metrics [] 30 0).worst_day = none ∧
    (get_velocity_metrics [] 30 0).completion_trend = Trend.stable ∧
    (get_velocity_metrics [] 30 0).productivity_score = 6 ∧
    (get_velocity_metrics [] 30 0).productivity_score ≠ 0 :=
  (C10_velocity_metrics_empty_window [] 30 0).1 rfl

theorem acyclic_of_no_parent (goals : List Goal)
    (h : ∀ g ∈ goals, g.parent_goal_id = none) : Acyclic goals := by
  have hstep : ∀ x y, ¬ gstep goals x y := by
    intro x y hxy
    unfold gstep parentOf findGoal at hxy
    cases hf : goals.find? (fun g => g.id == x) with
    | none => rw [hf] at hxy; simp at hxy
    | some g =>
      rw [hf] at hxy
      simp only [Option.some_bind] at hxy
      rw [h g (List.mem_of_find?_eq_some hf)] at hxy
      simp at hxy
  intro x hx
  cases hx with
  | single hs => exact hstep _ _ hs
  | tail _ hs => exact hstep _ _ hs

/-- C2 (confirmed): on an acyclic goal table, reassigning goal `A`'s parent
to an existing goal `P` succeeds exactly when `P` is neither `A` itself nor
has `A` in its ancestor chain at any depth, and every successful
reassignment leaves the parent relation a forest (no goal its own
ancestor, directly or transitively). -/
theorem C2_update_goal_set_parent_spec (goals : List Goal) (A P : ℕ)
    (hacyc : Acyclic goals)
    (hA : (findGoal goals A).isSome) (hP : (findGoal goals P).isSome) :
    ((∃ goals', update_goal_set_parent goals A P = Except.ok goals') ↔
      ¬ (P = A ∨ Reaches goals P A)) ∧
    (∀ goals', update_goal_set_parent goals A P = Except.ok goals' →
      Acyclic goals') := by
  unfold update_goal_set_parent
  rw [if_pos hA]
  by_cases hPA : P = A
  · rw [if_pos hPA]
    refine ⟨⟨fun hex => ?_, fun hcon => absurd (Or.inl hPA) hcon⟩,
      fun goals' hok => by cases hok⟩
    obtain ⟨goals', hok⟩ := hex
    cases hok
  · rw [if_neg hPA, if_pos hP]
    by_cases hdesc : is_descendant goals goals.length P A
    · rw [if_pos hdesc]
      have hreach : Reaches goals P A :=
        (is_descendant_iff_reaches goals P A).mp hdesc
      refine ⟨⟨fun hex => ?_, fun hcon => absurd (Or.inr hreach) hcon⟩,
        fun goals' hok => by cases hok⟩
      obtain ⟨goals', hok⟩ := hex
      cases hok
    · rw [if_neg hdesc]
      have hnreach : ¬ Reaches goals P A := by
        intro hr
        exact hdesc ((is_descendant_iff_reaches goals P A).mpr hr)
      constructor
      · constructor
        · intro _
          rintro (hc | hc)
          · exact hPA hc
          · exact hnreach hc
        · intro _
          exact ⟨_, rfl⟩
      · intro goals' hok
        simp only [Except.ok.injEq] at hok
        subst hok
        have hmap : (goals.map (fun g =>
            if g.id = A then { g with parent_goal_id := some P } else g)) =
            goals.map (setParentRow A P) := rfl
        rw [hmap]
        exact acyclic_after_setParent goals A P hacyc hPA hnreach hA

theorem C2_update_goal_set_parent_spec_witness :
    ((∃ goals', update_goal_set_parent
        [⟨1, GoalStatus.active, 0, none, none, none⟩,
         ⟨2, GoalStatus.active, 0, none, none, none⟩] 2 1 = Except.ok goals') ↔
      ¬ ((1:ℕ) = 2 ∨ Reaches
        [⟨1, GoalStatus.active, 0, none, none, none⟩,
         ⟨2, GoalStatus.active, 0, none, none, none⟩] 1 2)) ∧
    (∀ goals', update_goal_set_parent
        [⟨1, GoalStatus.active, 0, none, none, none⟩,
         ⟨2, GoalStatus.active, 0, none, none, none⟩] 2 1 = Except.ok goals' →
      Acyclic goals') := by
  refine C2_update_goal_set_parent_spec
    [⟨1, GoalStatus.active, 0, none, none, none⟩,
     ⟨2, GoalStatus.active, 0, none, none, none⟩] 2 1 ?_ (by rfl) (by rfl)
  apply acyclic_of_no_parent
  intro g hg
  rcases List.mem_cons.mp hg with rfl | hg2
  · rfl
  · rcases List.mem_singleton.mp hg2 with rfl
    rfl
